import Mathlib

/-!
Verification development for the FRAGMENT video-generation pipeline.

The Python source is shallowly embedded:
* strings are `List Char`; Python `str.split()` / `" ".join` / slices are
  modelled by `pySplit`, `joinWords`, `pySlice`;
* file-system artifacts are `File` records (stem plus suffix), a folder is a
  `FolderState` (presence flag plus entries in discovery order);
* floating-point second counts are modelled exactly by `ℚ`;
* fallible effects (missing folders, unreadable media, failing saves) are
  oracles threaded through environment records, with `Except`/`Option`
  results standing for raised exceptions.
-/

namespace Fragment

/-- Shorthand turning a string literal into the character-list model. -/
def str (s : String) : List Char := s.data

/-- Whitespace characters recognised by Python `str.split()` (ASCII subset). -/
def isPySpace (c : Char) : Bool :=
  c = ' ' || c = '\t' || c = '\n' || c = '\r' || c = Char.ofNat 11 || c = Char.ofNat 12

/-- Accumulator-based worker for `pySplit`; `cur` holds the reversed current word. -/
def pySplitAux : List Char → List Char → List (List Char)
  | cur, [] => if cur = [] then [] else [cur.reverse]
  | cur, c :: cs =>
    if isPySpace c then
      if cur = [] then pySplitAux [] cs else cur.reverse :: pySplitAux [] cs
    else
      pySplitAux (c :: cur) cs

/-- Python `text.split()`: split on whitespace runs, dropping empty pieces. -/
def pySplit (s : List Char) : List (List Char) := pySplitAux [] s

/-- Python `" ".join(words)`. -/
def joinWords : List (List Char) → List Char
  | [] => []
  | [w] => w
  | w :: ws => w ++ ' ' :: joinWords ws

/-- Python slice `l[i:j]` (with the implicit clamping of the stop index). -/
def pySlice (i j : Nat) (l : List α) : List α := (l.drop i).take (j - i)

/-- Python `range(0, stop, step)` for a nonnegative step; `step = 0`, which
raises `ValueError` in Python, is mapped to the empty list and is excluded by
an explicit check wherever the source could reach it. -/
def pyRange (stop step : Nat) : List Nat :=
  (List.range ((stop + step - 1) / step)).map (· * step)

/-- Python `sep.join`-style split on one separator character; the result is
always nonempty, like `str.split(sep)`. -/
def pySplitSep (sep : Char) : List Char → List (List Char)
  | [] => [[]]
  | c :: cs =>
    if c = sep then [] :: pySplitSep sep cs
    else
      match pySplitSep sep cs with
      | [] => [[c]]
      | r :: rs => (c :: r) :: rs

/-- Does the pattern occur at the head of the string (Python `startswith`)? -/
def strStarts : List Char → List Char → Bool
  | [], _ => true
  | _ :: _, [] => false
  | p :: ps, c :: cs => p = c && strStarts ps cs

/-- Numeric value of a digit string. -/
def digitsVal (ds : List Char) : Nat :=
  ds.foldl (fun n c => n * 10 + (c.toNat - 48)) 0

/-- A nonempty all-digit string, or failure. -/
def natDigits (ds : List Char) : Option Nat :=
  if ds ≠ [] ∧ ds.all Char.isDigit then some (digitsVal ds) else none

/-- Strip leading and trailing whitespace (the stripping `int()` performs). -/
def stripSpaces (s : List Char) : List Char :=
  ((s.dropWhile isPySpace).reverse.dropWhile isPySpace).reverse

/-- Python `int(s)`: optional sign around a nonempty digit run, `none` for the
`ValueError` case. -/
def pyInt (s : List Char) : Option Int :=
  match stripSpaces s with
  | '+' :: ds => (natDigits ds).map Int.ofNat
  | '-' :: ds => (natDigits ds).map (fun n => -(n : Int))
  | ds => (natDigits ds).map Int.ofNat

/-- First maximal digit run of a string (`re.findall(r'\d+', s)` head). -/
def firstDigitRun : List Char → Option (List Char)
  | [] => none
  | c :: cs => if c.isDigit then some ((c :: cs).takeWhile Char.isDigit) else firstDigitRun cs

/-- The sort key of `get_files.extract_number`, applied to a file stem.
`none` models the `float('inf')` produced when the tried `int()` raises:
`segment_*` stems take the piece after the first underscore, `scene_*` stems
additionally cut at the first dash, and every other stem yields its first
digit run, defaulting to `'0'` (so digitless stems get key `0`, not infinity). -/
def extractNumber (base : List Char) : Option Int :=
  if strStarts (str "segment_") base then
    pyInt ((pySplitSep '_' base).getD 1 [])
  else if strStarts (str "scene_") base then
    pyInt ((pySplitSep '-' ((pySplitSep '_' base).getD 1 [])).getD 0 [])
  else
    some (Int.ofNat (digitsVal ((firstDigitRun base).getD ['0'])))

/-- Comparison of sort keys, `none` acting as `float('inf')`. -/
def keyLE : Option Int → Option Int → Bool
  | _, none => true
  | none, some _ => false
  | some a, some b => a ≤ b

/-- Stable insertion of one element into a key-sorted list: the new element
goes in front of every later-discovered element with an equal key, exactly the
tie behaviour of Python's stable `sorted`. -/
def insortBy (key : α → Option Int) (x : α) : List α → List α
  | [] => [x]
  | y :: ys => if keyLE (key x) (key y) then x :: y :: ys else y :: insortBy key x ys

/-- Stable sort by key; agrees with Python `sorted(..., key=...)` because both
are stable sorts for the same total preorder. -/
def sortByKey (key : α → Option Int) : List α → List α
  | [] => []
  | x :: xs => insortBy key x (sortByKey key xs)

/-- A file path, represented by its stem and (dot-included) suffix. -/
structure File where
  stem : List Char
  suffix : List Char
deriving DecidableEq

/-- One directory: whether it exists, and its entries in discovery order. -/
structure FolderState where
  isPresent : Bool
  entries : List File
deriving DecidableEq

/-- Lower-casing used on suffixes before the extension test. -/
def lowerStr (s : List Char) : List Char := s.map Char.toLower

/-- The pure body of `get_files`: keep entries whose lower-cased suffix is in
`exts`, then sort by the numeric key extracted from the stem. -/
def getFilesList (entries : List File) (exts : List (List Char)) : List File :=
  sortByKey (fun f => extractNumber f.stem)
    (entries.filter (fun f => decide (lowerStr f.suffix ∈ exts)))

/-- `get_files`: raises `OSError` (the error case) when the folder is missing,
otherwise the filtered, numerically sorted listing. -/
def getFiles (folder : FolderState) (exts : List (List Char)) : Except Unit (List File) :=
  if folder.isPresent then .ok (getFilesList folder.entries exts) else .error ()

/-! Subtitle Timing Engine (`create_complete_srt` and the burned-in caption
block of `create_video`). A cue is a timed text chunk; times are exact `ℚ`
seconds standing for the source's floats. -/

/-- One subtitle cue: text chunk with start and end second counts. -/
structure Cue where
  text : List Char
  start : ℚ
  endTime : ℚ
deriving DecidableEq

/-- Lift a per-item emitter (clock in, cues and new clock out) to the fold
state `(accumulated cues, clock)` the source loops maintain. -/
def stepFold (step : ℚ → α → List Cue × ℚ) : List Cue × ℚ → α → List Cue × ℚ :=
  fun s a => (s.1 ++ (step s.2 a).1, (step s.2 a).2)

/-- One iteration of the chunk loop of `create_complete_srt`: the word slice
`words[i:min(i + chunk_size, len(words))]` is rejoined, recounted, and timed
as `duration * count / len(words)` from the running clock. -/
def srtChunkStep (chunkSize : Nat) (words : List (List Char)) (duration : ℚ)
    (t : ℚ) (i : Nat) : List Cue × ℚ :=
  let chunk := joinWords (pySlice i (min (i + chunkSize) words.length) words)
  let chunkDuration := duration * (((pySplit chunk).length : ℚ) / (words.length : ℚ))
  ([⟨chunk, t, t + chunkDuration⟩], t + chunkDuration)

/-- Cues of one narration segment in `create_complete_srt`, plus the advanced
clock: chunked proportionally when the word count exceeds `chunk_size`,
otherwise one cue spanning the whole duration. -/
def segmentCues (chunkSize : Nat) (text : List Char) (duration : ℚ) (t : ℚ) :
    List Cue × ℚ :=
  let words := pySplit text
  if words.length > chunkSize then
    List.foldl (stepFold (srtChunkStep chunkSize words duration)) ([], t)
      (pyRange words.length chunkSize)
  else
    ([⟨text, t, t + duration⟩], t + duration)

/-- Per-segment step of the `create_complete_srt` main loop. -/
def srtSegmentStep (chunkSize : Nat) (t : ℚ) (p : List Char × ℚ) : List Cue × ℚ :=
  segmentCues chunkSize p.1 p.2 t

/-- The cue sequence `create_complete_srt` computes from index-aligned texts
and durations: the zip truncates to the shorter list, the clock is seeded at
the intro offset, and every emitted cue starts where the previous one ended. -/
def createSrtCues (chunkSize : Nat) (intro : ℚ) (texts : List (List Char))
    (durs : List ℚ) : List Cue :=
  (List.foldl (stepFold (srtSegmentStep chunkSize)) ([], intro) (texts.zip durs)).1

/-- One iteration of the chunk loop in `create_video`'s subtitle block: the
slice is written `words[i:i + chunk_size]` there (no explicit `min`). -/
def videoChunkStep (words : List (List Char)) (duration : ℚ) (t : ℚ) (i : Nat) :
    List Cue × ℚ :=
  let chunk := joinWords (pySlice i (i + 10) words)
  let chunkDuration := duration * (((pySplit chunk).length : ℚ) / (words.length : ℚ))
  ([⟨chunk, t, t + chunkDuration⟩], t + chunkDuration)

/-- Per-segment step of `create_video`'s burned-in caption loop
(`chunk_size` is the literal `10` there). -/
def videoSegmentStep (t : ℚ) (p : List Char × ℚ) : List Cue × ℚ :=
  let words := pySplit p.1
  if words.length > 10 then
    List.foldl (stepFold (videoChunkStep words p.2)) ([], t) (pyRange words.length 10)
  else
    ([⟨p.1, t, t + p.2⟩], t + p.2)

/-- The burned-in caption cues `create_video` derives for its composite,
seeded at `Start_duration = 5`. -/
def videoSubtitleClips (texts : List (List Char)) (durs : List ℚ) : List Cue :=
  (List.foldl (stepFold videoSegmentStep) ([], 5) (texts.zip durs)).1

/-- Cues emitted by a clock-threading loop, started from an empty accumulator. -/
def runCues (step : ℚ → α → List Cue × ℚ) (t : ℚ) (l : List α) : List Cue :=
  (List.foldl (stepFold step) ([], t) l).1

/-- Final clock of a clock-threading loop. -/
def runClock (step : ℚ → α → List Cue × ℚ) (t : ℚ) (l : List α) : ℚ :=
  (List.foldl (stepFold step) ([], t) l).2

/-- Does this cue list start at `t`, chain each cue's start to the previous
cue's end, and finish at `t'`? The contiguity invariant of the timing engine. -/
def chainFrom : ℚ → List Cue → ℚ → Bool
  | t, [], t' => decide (t = t')
  | t, c :: cs, t' => decide (c.start = t) && chainFrom c.endTime cs t'

/-! Script JSON access (`extract_topic_from_json`, `extract_audio_from_json`,
`json_extract`). -/

/-- One entry of the script's `audio_script` array; `text` is absent when the
item lacks a `text` key. -/
structure AudioItem where
  text : Option (List Char)
deriving DecidableEq

/-- Outcome of reading the script JSON file: unreadable, invalid JSON, or
parsed content (optional `topic` key plus the `audio_script` array). -/
inductive ScriptOutcome where
  | missing
  | malformed
  | parsed (topic : Option (List Char)) (audioScript : List AudioItem)
deriving DecidableEq

/-- `extract_audio_from_json`: every failure is swallowed into `[]`. -/
def extractAudioFromJson : ScriptOutcome → List AudioItem
  | .parsed _ items => items
  | _ => []

/-- `json_extract`: texts of the items that carry a `text` key ( `[]` when the
script is missing, malformed, or has no audio script). -/
def jsonExtract (s : ScriptOutcome) : List (List Char) :=
  (extractAudioFromJson s).filterMap (·.text)

/-- `extract_topic_from_json`: `topic` with a default, or the error fallback. -/
def extractTopic : ScriptOutcome → List Char
  | .parsed t _ => t.getD (str "No topic found")
  | _ => str "Unknown Topic"

/-! Timeline Assembler (`create_video`). Rendering side effects (moviepy
encoding, PIL drawing) are outside the embedding; the timeline structure,
clip durations and caption cues are modelled. -/

/-- The path returned by `create_placeholder_image`
(`Path("placeholder_temp.png")`). -/
def placeholderFile : File := ⟨str "placeholder_temp", str ".png"⟩

/-- One clip of the composed timeline. -/
inductive Clip where
  | intro (title : List Char) (duration : ℚ)
  | segment (image : File) (audio : File) (duration : ℚ)
  | outro (title : List Char) (duration : ℚ)
deriving DecidableEq

/-- Duration of a clip. -/
def Clip.duration : Clip → ℚ
  | .intro _ d => d
  | .segment _ _ d => d
  | .outro _ d => d

/-- Is this a per-segment clip (as opposed to the intro or outro card)? -/
def Clip.isSegment : Clip → Bool
  | .segment _ _ _ => true
  | _ => false

/-- Image of a segment clip (placeholder for the cards, never queried there). -/
def Clip.image : Clip → File
  | .segment img _ _ => img
  | _ => placeholderFile

/-- Total duration of a gapless concatenation (`concatenate_videoclips`):
each clip's end is the next clip's start, so the whole spans the sum. -/
def totalDuration (clips : List Clip) : ℚ := (clips.map Clip.duration).sum

/-- The per-pair clip loop of `create_video`: every `(image, audio)` pair
yields a still-image clip held for its audio's probed duration, with the
durations also collected; any unreadable audio raises (the `none` case). -/
def segmentClipsAndDurs (probe : File → Option ℚ) :
    List (File × File) → Option (List Clip × List ℚ)
  | [] => some ([], [])
  | (img, aud) :: ps =>
    match probe aud with
    | none => none
    | some d =>
      (segmentClipsAndDurs probe ps).map
        (fun r => (Clip.segment img aud d :: r.1, d :: r.2))

/-- Environment of one `create_video` call: folder contents, existence of the
required files, parsed script content, and the duration prober. -/
structure VideoEnv where
  audioFolder : FolderState
  scriptOk : Bool
  fontOk : Bool
  introOk : Bool
  script : ScriptOutcome
  probe : File → Option ℚ

/-- Result of a successful `create_video` run: the composed clip list and the
burned-in caption cues (empty when subtitles are off). -/
structure VideoResult where
  clips : List Clip
  captions : List Cue
deriving DecidableEq

/-- The audio listing of `create_video`:
`get_files(audio_folder, ('.mp3', '.wav'))` (the folder was checked first). -/
def videoAudioFiles (env : VideoEnv) : List File :=
  getFilesList env.audioFolder.entries [str ".mp3", str ".wav"]

/-- The image-selection branch of `create_video`: an unsupplied, absent, or
empty image folder yields the placeholder path repeated once per audio file;
otherwise the numerically sorted image listing. -/
def selectImages (imageFolderArg : Option FolderState) (audioFiles : List File) :
    List File :=
  match imageFolderArg with
  | none => List.replicate audioFiles.length placeholderFile
  | some f =>
    if f.isPresent = false ∨ f.entries = [] then
      List.replicate audioFiles.length placeholderFile
    else
      getFilesList f.entries [str ".jpg", str ".png", str ".jpeg"]

/-- `create_video`. The image argument is `none` when not supplied; a missing
or empty image folder falls back to the placeholder image repeated once per
audio file. Validation failures and unreadable audio raise (the error case);
the success value is the timeline plus the caption cues. -/
def createVideo (imageFolderArg : Option FolderState) (env : VideoEnv)
    (withSubtitles : Bool) : Except Unit VideoResult :=
  if env.audioFolder.isPresent = false then .error () else
  if env.scriptOk = false then .error () else
  if env.fontOk = false then .error () else
  if env.introOk = false then .error () else
  let audioFiles := videoAudioFiles env
  let images := selectImages imageFolderArg audioFiles
  let texts := jsonExtract env.script
  match segmentClipsAndDurs env.probe (images.zip audioFiles) with
  | none => .error ()
  | some (segs, durs) =>
    let clips := Clip.intro (extractTopic env.script) 5 :: segs
      ++ [Clip.outro (str "MADE BY TEAM FRAGMENT") 5]
    let captions := if withSubtitles then videoSubtitleClips texts durs else []
    .ok ⟨clips, captions⟩

/-- The duration list `create_video` accumulates while building clips: one
probe per positionally zipped `(image, audio)` pair — truncated at the
shorter of the two listings. -/
def createVideoAudioDurations (images audioFiles : List File)
    (probe : File → Option ℚ) : List ℚ :=
  (images.zip audioFiles).filterMap (fun p => probe p.2)

/-! `create_complete_srt` as a whole: its boolean result and the exception
behaviour around it. -/

/-- Probe every audio clip in order (`[AudioFileClip(str(x)) for x in ...]`);
the first undecodable artifact raises. -/
def probeAll (probe : File → Option ℚ) : List File → Option (List ℚ)
  | [] => some []
  | f :: fs =>
    match probe f with
    | none => none
    | some d => (probeAll probe fs).map (d :: ·)

/-- The `ValueError` Python raises from `range(0, len(words), 0)`: reachable
exactly when `chunk_size = 0` and some zipped segment has at least one word. -/
def srtRangeError (chunkSize : Nat) (texts : List (List Char)) (durs : List ℚ) : Bool :=
  chunkSize = 0 && (texts.zip durs).any (fun p => 0 < (pySplit p.1).length)

/-- Environment of one `create_complete_srt` call. -/
structure SrtEnv where
  mkdirOk : Bool
  script : ScriptOutcome
  audioFolder : FolderState
  probe : File → Option ℚ
  saveOk : Bool

/-- `create_complete_srt`: the output-directory `mkdir` sits before the `try`
block, so its failure raises to the caller (the error case); every failure
inside the `try` (missing audio folder, unreadable audio, the chunk-size
`ValueError`, a failing save) returns `False`; otherwise `True`. A missing or
malformed script is swallowed by `json_extract` into an empty text list and
is not a failure. -/
def createCompleteSrt (chunkSize : Nat) (env : SrtEnv) : Except Unit Bool :=
  if env.mkdirOk = false then .error () else
  .ok (
    let script := jsonExtract env.script
    match getFiles env.audioFolder [str ".wav", str ".mp3"] with
    | .error _ => false
    | .ok audioFiles =>
      match probeAll env.probe audioFiles with
      | none => false
      | some durs =>
        if srtRangeError chunkSize script durs then false
        else if env.saveOk = false then false
        else true)

/-- The cue list a successful `create_complete_srt` run writes to the SRT
file, at the source's fixed intro offset `start_time = 5`. -/
def createCompleteSrtCues (chunkSize : Nat) (env : SrtEnv) : List Cue :=
  match getFiles env.audioFolder [str ".wav", str ".mp3"] with
  | .error _ => []
  | .ok audioFiles =>
    match probeAll env.probe audioFiles with
    | none => []
    | some durs => createSrtCues chunkSize 5 (jsonExtract env.script) durs

/-- `_generate_video_task` never branches on the boolean returned by
`create_complete_srt`; the assembly stage that follows it runs whenever the
call returned at all (only a raised exception aborts the task). -/
def pipelineReachesAssembly (srtResult : Except Unit Bool) : Bool :=
  match srtResult with
  | .ok _ => true
  | .error _ => false

/-! IMAGING stage (`main_generate_images`). -/

/-- One entry of the script's `visual_script` array. -/
structure Scene where
  prompt : Option (List Char)
  timestampStart : Option (List Char)
deriving DecidableEq

/-- Outcomes of the external generation calls for each scene index: the URL
list `generate_openai_image` returns (empty on API failure) and whether the
download of the first URL succeeds. -/
structure ImagingEnv where
  urls : Nat → List (List Char)
  downloadOk : Nat → Bool

/-- Python truthiness of the optional prompt (`if not prompt: skip`). -/
def promptTruthy : Option (List Char) → Bool
  | none => false
  | some [] => false
  | some (_ :: _) => true

/-- Does the loop body for scene `i` reach `success_count += 1`? It must have
a truthy prompt, a nonempty URL list with a truthy first URL, and a
successful download; any failure is logged and skipped. -/
def sceneSuccess (env : ImagingEnv) (i : Nat) (sc : Scene) : Bool :=
  promptTruthy sc.prompt &&
  (match env.urls i with
   | [] => false
   | u :: _ => decide (u ≠ [])) &&
  env.downloadOk i

/-- The `success_count` accumulated by the enumerated scene loop, starting at
index `k`. -/
def imagingCount (env : ImagingEnv) : Nat → List Scene → Nat
  | _, [] => 0
  | k, sc :: rest =>
    (if sceneSuccess env k sc then 1 else 0) + imagingCount env (k + 1) rest

/-- `main_generate_images`: `False` for an unreadable script (`none`) or a
missing `visual_script` key (`some none`); otherwise the verdict
`success_count > 0` of the skip-and-continue loop. -/
def mainGenerateImages (script : Option (Option (List Scene))) (env : ImagingEnv) : Bool :=
  match script with
  | none => false
  | some none => false
  | some (some scenes) => decide (0 < imagingCount env 0 scenes)

/-- Number of images the IMAGING stage leaves in the output folder. -/
def imagesProduced (script : Option (Option (List Scene))) (env : ImagingEnv) : Nat :=
  match script with
  | none => 0
  | some none => 0
  | some (some scenes) => imagingCount env 0 scenes

/-! Orchestrator workspace layout (`Settings.__init__` defaults and
`_generate_video_task`). -/

/-- The derived path defaults of `Settings.__init__` (environment overrides
absent, as in the deployed configuration). -/
structure Settings where
  baseDir : List Char
deriving DecidableEq

/-- `RESOURCE_DIR = BASE_DIR / "resources"`. -/
def resourceDir (s : Settings) : List Char := s.baseDir ++ str "/resources"

/-- `IMAGES_DIR = RESOURCE_DIR / "images"`. -/
def imagesDir (s : Settings) : List Char := resourceDir s ++ str "/images"

/-- `AUDIO_DIR = RESOURCE_DIR / "audio"`. -/
def audioDir (s : Settings) : List Char := resourceDir s ++ str "/audio"

/-- `SUBTITLE_OUTPUT_DIR = RESOURCE_DIR / "subtitles"`. -/
def subtitleOutputDir (s : Settings) : List Char := resourceDir s ++ str "/subtitles"

/-- One video generation request (the fields the workspace paths can see). -/
structure VideoRequest where
  topic : List Char
  duration : Nat
deriving DecidableEq

/-- `re.sub(r"[^A-Za-z0-9]", "_", topic)[:30]`. -/
def cleanTopic (topic : List Char) : List Char :=
  (topic.map (fun c => if c.isAlphanum then c else '_')).take 30

/-- The image scratch directory `_generate_video_task` cleans and fills for a
given request: always the one global `settings.IMAGES_DIR`. -/
def jobImagesWorkspace (s : Settings) (_req : VideoRequest) : List Char :=
  imagesDir s

/-- The audio scratch directory of one job: the global `settings.AUDIO_DIR`. -/
def jobAudioWorkspace (s : Settings) (_req : VideoRequest) : List Char :=
  audioDir s

/-- The SRT output path of one job:
`SUBTITLE_OUTPUT_DIR / f"{clean_topic}.srt"`. -/
def jobSrtPath (s : Settings) (req : VideoRequest) : List Char :=
  subtitleOutputDir s ++ str "/" ++ cleanTopic req.topic ++ str ".srt"

/-! Lemmas about the Segment Store ordering. -/

theorem keyLE_total (a b : Option Int) : keyLE a b = true ∨ keyLE b a = true := by
  rcases a with _ | a <;> rcases b with _ | b <;> simp [keyLE] <;> exact Int.le_total a b

theorem keyLE_trans {a b c : Option Int} (h1 : keyLE a b = true) (h2 : keyLE b c = true) :
    keyLE a c = true := by
  rcases a with _ | a <;> rcases b with _ | b <;> rcases c with _ | c <;>
    simp_all [keyLE] <;> omega

theorem insortBy_perm (key : α → Option Int) (x : α) (l : List α) :
    List.Perm (insortBy key x l) (x :: l) := by
  induction l with
  | nil => simp [insortBy]
  | cons y ys ih =>
    by_cases h : keyLE (key x) (key y) = true
    · simp [insortBy, h]
    · simp only [insortBy, h]
      exact List.Perm.trans (List.Perm.cons y ih) (List.Perm.swap x y ys)

theorem sortByKey_perm (key : α → Option Int) (l : List α) :
    List.Perm (sortByKey key l) l := by
  induction l with
  | nil => simp [sortByKey]
  | cons x xs ih =>
    exact List.Perm.trans (insortBy_perm key x (sortByKey key xs)) (List.Perm.cons x ih)

theorem mem_insortBy (key : α → Option Int) (x y : α) (l : List α)
    (h : y ∈ insortBy key x l) : y = x ∨ y ∈ l := by
  have := (insortBy_perm key x l).mem_iff.mp h
  simpa using this

theorem insortBy_pairwise (key : α → Option Int) (x : α) (l : List α)
    (h : l.Pairwise (fun a b => keyLE (key a) (key b) = true)) :
    (insortBy key x l).Pairwise (fun a b => keyLE (key a) (key b) = true) := by
  induction l with
  | nil => simp [insortBy]
  | cons y ys ih =>
    rcases List.pairwise_cons.mp h with ⟨hy, hys⟩
    by_cases hxy : keyLE (key x) (key y) = true
    · simp only [insortBy, hxy, if_true]
      refine List.pairwise_cons.mpr ⟨?_, h⟩
      intro z hz
      rcases List.mem_cons.mp hz with rfl | hz
      · exact hxy
      · exact keyLE_trans hxy (hy z hz)
    · simp only [insortBy, hxy, if_false]
      refine List.pairwise_cons.mpr ⟨?_, ih hys⟩
      intro z hz
      rcases mem_insortBy key x z ys hz with hzx | hz
      · rw [hzx]
        rcases keyLE_total (key x) (key y) with h' | h'
        · exact absurd h' hxy
        · exact h'
      · exact hy z hz

theorem sortByKey_pairwise (key : α → Option Int) (l : List α) :
    (sortByKey key l).Pairwise (fun a b => keyLE (key a) (key b) = true) := by
  induction l with
  | nil => simp [sortByKey]
  | cons x xs ih => exact insortBy_pairwise key x (sortByKey key xs) ih

theorem keyLE_refl (a : Option Int) : keyLE a a = true := by
  rcases a with _ | a
  · rfl
  · simp [keyLE]

theorem insortBy_eq_append (key : α → Option Int) (x : α) :
    ∀ l : List α, ∃ l₁ l₂, insortBy key x l = l₁ ++ x :: l₂ ∧ l = l₁ ++ l₂ ∧
      ∀ y ∈ l₁, keyLE (key x) (key y) = false := by
  intro l
  induction l with
  | nil => exact ⟨[], [], rfl, rfl, by simp⟩
  | cons y ys ih =>
    by_cases h : keyLE (key x) (key y) = true
    · exact ⟨[], y :: ys, by simp [insortBy, h], rfl, by simp⟩
    · rcases ih with ⟨l₁, l₂, h1, h2, h3⟩
      refine ⟨y :: l₁, l₂, ?_, ?_, ?_⟩
      · simp only [insortBy, h, if_false]
        rw [h1]
        rfl
      · rw [h2]
        rfl
      · intro z hz
        rcases List.mem_cons.mp hz with rfl | hz
        · simpa using h
        · exact h3 z hz

theorem filter_insortBy (key : α → Option Int) (x : α) (l : List α) (k : Option Int) :
    (insortBy key x l).filter (fun z => decide (key z = k))
      = if key x = k then x :: l.filter (fun z => decide (key z = k))
        else l.filter (fun z => decide (key z = k)) := by
  rcases insortBy_eq_append key x l with ⟨l₁, l₂, h1, h2, h3⟩
  rw [h1, h2]
  rw [List.filter_append, List.filter_append]
  by_cases hk : key x = k
  · have hl₁ : List.filter (fun z => decide (key z = k)) l₁ = [] := by
      rw [List.filter_eq_nil_iff]
      intro y hy
      simp only [decide_eq_true_eq]
      intro hyk
      have hle : keyLE (key x) (key y) = true := by
        rw [hk, hyk]
        exact keyLE_refl k
      rw [h3 y hy] at hle
      exact Bool.false_ne_true hle
    simp [hl₁, hk]
  · simp [hk]

/-- Stability of the Segment Store listing: for every key value, the
equal-key files appear in the sorted result in exactly their discovery
order (matching the tie behaviour of Python's stable `sorted`). -/
theorem sortByKey_filter (key : α → Option Int) (k : Option Int) :
    ∀ l : List α, (sortByKey key l).filter (fun z => decide (key z = k))
      = l.filter (fun z => decide (key z = k)) := by
  intro l
  induction l with
  | nil => rfl
  | cons x xs ih =>
    show (insortBy key x (sortByKey key xs)).filter _ = _
    rw [filter_insortBy]
    by_cases hk : key x = k
    · rw [if_pos hk, ih]
      simp [List.filter_cons, hk]
    · rw [if_neg hk, ih]
      simp [List.filter_cons, hk]

theorem firstDigitRun_none (s : List Char) (h : ∀ c ∈ s, c.isDigit = false) :
    firstDigitRun s = none := by
  induction s with
  | nil => rfl
  | cons c cs ih =>
    have hc : c.isDigit = false := h c (List.mem_cons_self c cs)
    simp only [firstDigitRun, hc]
    exact ih (fun d hd => h d (List.mem_cons_of_mem c hd))

/-- Claim C1 (counterexample): an identifier with no digits does not sort
last. `extract_number` sends the digitless, non-`segment_`/`scene_` stem
`cover` to `int('0') = 0`, not to infinity, so `get_files` lists `cover`
before `segment_1`, while the claim demands the opposite order. -/
theorem c1_counterexample :
    getFiles ⟨true, [⟨str "segment_1", str ".png"⟩, ⟨str "cover", str ".png"⟩]⟩
        [str ".jpg", str ".png", str ".jpeg"]
      = .ok [⟨str "cover", str ".png"⟩, ⟨str "segment_1", str ".png"⟩] ∧
    ([⟨str "cover", str ".png"⟩, ⟨str "segment_1", str ".png"⟩] : List File)
      ≠ [⟨str "segment_1", str ".png"⟩, ⟨str "cover", str ".png"⟩] := by
  constructor
  · rfl
  · decide

/-- Claim C1 (amended): `get_files` returns a permutation of the
extension-filtered entries, stably sorted by the extracted key, where a key
parse failure (not a digitless name) sorts last; stability means that for
every key value the equal-key files are listed in exactly their discovery
order; a digitless stem without the `segment_`/`scene_` prefixes gets key `0`
and therefore sorts first among the lowest-indexed files; in particular
`segment_2` sorts before `segment_10`. -/
theorem c1_amended :
    (∀ (folder : FolderState) (exts : List (List Char)) (files : List File),
      getFiles folder exts = .ok files →
        files.Pairwise (fun a b => keyLE (extractNumber a.stem) (extractNumber b.stem) = true) ∧
        List.Perm files (folder.entries.filter (fun f => decide (lowerStr f.suffix ∈ exts)))) ∧
    (∀ (folder : FolderState) (exts : List (List Char)) (files : List File)
        (k : Option Int), getFiles folder exts = .ok files →
      files.filter (fun f => decide (extractNumber f.stem = k))
        = (folder.entries.filter (fun f => decide (lowerStr f.suffix ∈ exts))).filter
            (fun f => decide (extractNumber f.stem = k))) ∧
    (∀ s : List Char, strStarts (str "segment_") s = false →
      strStarts (str "scene_") s = false → (∀ c ∈ s, c.isDigit = false) →
      extractNumber s = some 0) ∧
    getFiles ⟨true, [⟨str "segment_10", str ".mp3"⟩, ⟨str "segment_2", str ".mp3"⟩]⟩
        [str ".mp3", str ".wav"]
      = .ok [⟨str "segment_2", str ".mp3"⟩, ⟨str "segment_10", str ".mp3"⟩] := by
  refine ⟨?_, ?_, ?_, by rfl⟩
  · intro folder exts files h
    have hp : folder.isPresent = true := by
      by_contra hp
      simp [getFiles, hp] at h
    simp only [getFiles, hp, if_true, Except.ok.injEq] at h
    subst h
    exact ⟨sortByKey_pairwise _ _, sortByKey_perm _ _⟩
  · intro folder exts files k h
    have hp : folder.isPresent = true := by
      by_contra hp
      simp [getFiles, hp] at h
    simp only [getFiles, hp, if_true, Except.ok.injEq] at h
    subst h
    exact sortByKey_filter (fun f : File => extractNumber f.stem) k _
  · intro s h1 h2 h3
    simp only [extractNumber, h1, h2, Bool.false_eq_true, if_false,
      firstDigitRun_none s h3, Option.getD]
    rfl

/-- Claim C1 (witness): the amended theorem applied to a concrete folder, a
concrete digitless stem, the `segment_2`/`segment_10` example, and a folder
with two tied key-0 stems (`b_side` before `alpha` in discovery order) whose
tie order the listing provably preserves. -/
theorem c1_witness :
    (getFiles ⟨true, [⟨str "b_side", str ".mp3"⟩, ⟨str "segment_1", str ".mp3"⟩]⟩
        [str ".mp3", str ".wav"]
      = .ok [⟨str "b_side", str ".mp3"⟩, ⟨str "segment_1", str ".mp3"⟩]) ∧
    ([⟨str "b_side", str ".mp3"⟩, ⟨str "segment_1", str ".mp3"⟩] : List File).Pairwise
      (fun a b => keyLE (extractNumber a.stem) (extractNumber b.stem) = true) ∧
    List.Perm [⟨str "b_side", str ".mp3"⟩, (⟨str "segment_1", str ".mp3"⟩ : File)]
      (([⟨str "b_side", str ".mp3"⟩, ⟨str "segment_1", str ".mp3"⟩] : List File).filter
        (fun f => decide (lowerStr f.suffix ∈ [str ".mp3", str ".wav"]))) ∧
    extractNumber (str "cover") = some 0 ∧
    (getFiles ⟨true, [⟨str "b_side", str ".mp3"⟩, ⟨str "alpha", str ".mp3"⟩,
        ⟨str "segment_1", str ".mp3"⟩]⟩ [str ".mp3", str ".wav"]
      = .ok [⟨str "b_side", str ".mp3"⟩, ⟨str "alpha", str ".mp3"⟩,
          ⟨str "segment_1", str ".mp3"⟩]) ∧
    ([⟨str "b_side", str ".mp3"⟩, ⟨str "alpha", str ".mp3"⟩,
        ⟨str "segment_1", str ".mp3"⟩] : List File).filter
        (fun f => decide (extractNumber f.stem = some 0))
      = (([⟨str "b_side", str ".mp3"⟩, ⟨str "alpha", str ".mp3"⟩,
          ⟨str "segment_1", str ".mp3"⟩] : List File).filter
          (fun f => decide (lowerStr f.suffix ∈ [str ".mp3", str ".wav"]))).filter
          (fun f => decide (extractNumber f.stem = some 0)) := by
  have h := c1_amended
  refine ⟨by rfl, ?_, ?_, ?_, by rfl, ?_⟩
  · exact (h.1 ⟨true, [⟨str "b_side", str ".mp3"⟩, ⟨str "segment_1", str ".mp3"⟩]⟩
      [str ".mp3", str ".wav"] _ (by rfl)).1
  · exact (h.1 ⟨true, [⟨str "b_side", str ".mp3"⟩, ⟨str "segment_1", str ".mp3"⟩]⟩
      [str ".mp3", str ".wav"] _ (by rfl)).2
  · exact h.2.2.1 (str "cover") (by decide) (by decide) (by decide)
  · exact h.2.1 ⟨true, [⟨str "b_side", str ".mp3"⟩, ⟨str "alpha", str ".mp3"⟩,
      ⟨str "segment_1", str ".mp3"⟩]⟩ [str ".mp3", str ".wav"]
      [⟨str "b_side", str ".mp3"⟩, ⟨str "alpha", str ".mp3"⟩,
       ⟨str "segment_1", str ".mp3"⟩] (some 0) (by rfl)

/-! Lemmas about `pySplit` and `joinWords`: words produced by a split are
nonempty and whitespace-free, and joining such words with single spaces and
re-splitting recovers them. -/

theorem pySplitAux_words (s : List Char) : ∀ (cur : List Char),
    (∀ c ∈ cur, isPySpace c = false) →
    ∀ w ∈ pySplitAux cur s, w ≠ [] ∧ ∀ c ∈ w, isPySpace c = false := by
  induction s with
  | nil =>
    intro cur hcur w hw
    by_cases h : cur = []
    · simp [pySplitAux, h] at hw
    · simp only [pySplitAux, h, if_false, List.mem_singleton] at hw
      subst hw
      refine ⟨by simpa using h, ?_⟩
      intro c hc
      exact hcur c (List.mem_reverse.mp hc)
  | cons a as ih =>
    intro cur hcur w hw
    by_cases ha : isPySpace a = true
    · by_cases h : cur = []
      · simp only [pySplitAux, ha, if_true, h, if_true] at hw
        exact ih [] (by simp) w hw
      · simp only [pySplitAux, ha, if_true, h, if_false, List.mem_cons] at hw
        rcases hw with rfl | hw
        · refine ⟨by simpa using h, ?_⟩
          intro c hc
          exact hcur c (List.mem_reverse.mp hc)
        · exact ih [] (by simp) w hw
    · simp only [pySplitAux, ha, if_false] at hw
      refine ih (a :: cur) ?_ w hw
      intro c hc
      rcases List.mem_cons.mp hc with rfl | hc
      · simpa using ha
      · exact hcur c hc

theorem pySplit_words (s : List Char) :
    ∀ w ∈ pySplit s, w ≠ [] ∧ ∀ c ∈ w, isPySpace c = false :=
  pySplitAux_words s [] (by simp)

theorem pySplitAux_nonspace_app (w : List Char) (hw : ∀ c ∈ w, isPySpace c = false) :
    ∀ (cur rest : List Char),
      pySplitAux cur (w ++ rest) = pySplitAux (w.reverse ++ cur) rest := by
  induction w with
  | nil => intro cur rest; simp
  | cons a as ih =>
    intro cur rest
    have ha : isPySpace a = false := hw a (List.mem_cons_self a as)
    simp only [List.cons_append, pySplitAux, ha, Bool.false_eq_true, if_false]
    show pySplitAux (a :: cur) (as ++ rest) = pySplitAux ((a :: as).reverse ++ cur) rest
    rw [ih (fun c hc => hw c (List.mem_cons_of_mem a hc)) (a :: cur) rest]
    simp

theorem pySplit_joinWords (ws : List (List Char))
    (h : ∀ w ∈ ws, w ≠ [] ∧ ∀ c ∈ w, isPySpace c = false) :
    pySplit (joinWords ws) = ws := by
  induction ws with
  | nil => rfl
  | cons w ws ih =>
    rcases h w (List.mem_cons_self w ws) with ⟨hw1, hw2⟩
    cases ws with
    | nil =>
      show pySplitAux [] w = [w]
      have := pySplitAux_nonspace_app w hw2 [] []
      rw [List.append_nil] at this
      rw [this]
      simp only [pySplitAux, List.append_nil, List.reverse_eq_nil_iff]
      rw [if_neg hw1]
      simp
    | cons w' ws' =>
      show pySplitAux [] (w ++ ' ' :: joinWords (w' :: ws')) = w :: w' :: ws'
      rw [pySplitAux_nonspace_app w hw2 [] (' ' :: joinWords (w' :: ws'))]
      have hsp : isPySpace ' ' = true := by decide
      have hne : (w.reverse ++ [] : List Char) ≠ [] := by
        simpa using hw1
      simp only [pySplitAux, hsp, if_true, List.append_nil]
      rw [if_neg (by simpa using hw1)]
      rw [List.reverse_reverse]
      have := ih (fun v hv => h v (List.mem_cons_of_mem w hv))
      exact congrArg (w :: ·) this

theorem wordCount_joinWords (chunk : List (List Char))
    (h : ∀ w ∈ chunk, w ≠ [] ∧ ∀ c ∈ w, isPySpace c = false) :
    (pySplit (joinWords chunk)).length = chunk.length := by
  rw [pySplit_joinWords chunk h]

/-! Arithmetic of `pyRange` chunk starts. -/

theorem pyRange_zero (step : Nat) : pyRange 0 step = [] := by
  unfold pyRange
  rcases Nat.eq_zero_or_pos step with h | h
  · subst h; rfl
  · rw [Nat.div_eq_of_lt (by omega)]
    rfl

theorem pyRange_succ (n step : Nat) (hn : 1 ≤ n) (hs : 1 ≤ step) :
    pyRange n step = 0 :: (pyRange (n - step) step).map (· + step) := by
  unfold pyRange
  have hm : (n + step - 1) / step = (n - step + step - 1) / step + 1 := by
    rcases Nat.lt_or_ge n step with h | h
    · have h1 : n - step = 0 := by omega
      rw [h1]
      have h2 : (n + step - 1) / step = 1 := by
        apply Nat.div_eq_of_lt_le
        · omega
        · omega
      have h3 : (0 + step - 1) / step = 0 := Nat.div_eq_of_lt (by omega)
      omega
    · have h1 : n + step - 1 = (n - 1) + step := by omega
      have h2 : n - step + step - 1 = (n - step) + step - 1 := rfl
      have h3 : n - step + step = n := by omega
      rw [h1, Nat.add_div_right _ (by omega)]
      have h4 : n - step + step - 1 = n - 1 := by omega
      rw [h4]
  rw [hm, List.range_succ_eq_map]
  simp only [List.map_cons, Nat.zero_mul, List.map_map]
  congr 1
  apply List.map_congr_left
  intro k _
  show (k + 1) * step = k * step + step
  ring

theorem pyRange_mem_lt (n step i : Nat) (hs : 1 ≤ step) (hi : i ∈ pyRange n step) :
    i < n := by
  rcases Nat.eq_zero_or_pos n with rfl | hn
  · rw [pyRange_zero] at hi
    simp at hi
  · unfold pyRange at hi
    rcases List.mem_map.mp hi with ⟨k, hk, rfl⟩
    have hklt : k < (n + step - 1) / step := List.mem_range.mp hk
    have h1 : (k + 1) * step ≤ ((n + step - 1) / step) * step :=
      Nat.mul_le_mul_right step hklt
    have h2 : ((n + step - 1) / step) * step ≤ n + step - 1 := Nat.div_mul_le_self _ _
    have h3 : (k + 1) * step = k * step + step := by ring
    omega

theorem sum_min_pyRange (step : Nat) (hs : 1 ≤ step) :
    ∀ n : Nat, ((pyRange n step).map (fun i => min step (n - i))).sum = n := by
  intro n
  induction n using Nat.strong_induction_on with
  | _ n ih =>
    rcases Nat.eq_zero_or_pos n with rfl | hn
    · rw [pyRange_zero]; rfl
    · rw [pyRange_succ n step hn hs]
      simp only [List.map_cons, List.map_map, List.sum_cons, Nat.sub_zero]
      have heq : ((pyRange (n - step) step).map ((fun i => min step (n - i)) ∘ (· + step))).sum
          = ((pyRange (n - step) step).map (fun i => min step (n - step - i))).sum := by
        congr 1
        apply List.map_congr_left
        intro i _
        simp only [Function.comp_apply]
        omega
      rw [heq, ih (n - step) (by omega)]
      omega

/-! Lemmas about clock-threading cue folds and the contiguity predicate. -/

theorem foldl_stepFold_acc (step : ℚ → α → List Cue × ℚ) (l : List α) :
    ∀ (acc : List Cue) (t : ℚ),
      List.foldl (stepFold step) (acc, t) l
        = (acc ++ runCues step t l, runClock step t l) := by
  induction l with
  | nil => intro acc t; simp [runCues, runClock]
  | cons a as ih =>
    intro acc t
    show List.foldl (stepFold step) (stepFold step (acc, t) a) as = _
    have h1 : stepFold step (acc, t) a = (acc ++ (step t a).1, (step t a).2) := rfl
    rw [h1, ih]
    have h2 : runCues step t (a :: as)
        = (step t a).1 ++ runCues step (step t a).2 as := by
      show (List.foldl (stepFold step) (stepFold step ([], t) a) as).1 = _
      have h3 : stepFold step ([], t) a = ((step t a).1, (step t a).2) := by
        simp [stepFold]
      rw [h3]
      have h4 := ih (step t a).1 (step t a).2
      rw [h4]
    have h5 : runClock step t (a :: as) = runClock step (step t a).2 as := by
      show (List.foldl (stepFold step) (stepFold step ([], t) a) as).2 = _
      have h3 : stepFold step ([], t) a = ((step t a).1, (step t a).2) := by
        simp [stepFold]
      rw [h3]
      have h4 := ih (step t a).1 (step t a).2
      rw [h4]
    rw [h2, h5, List.append_assoc]

theorem runCues_cons (step : ℚ → α → List Cue × ℚ) (t : ℚ) (a : α) (as : List α) :
    runCues step t (a :: as) = (step t a).1 ++ runCues step (step t a).2 as := by
  show (List.foldl (stepFold step) (stepFold step ([], t) a) as).1 = _
  have h3 : stepFold step ([], t) a = ((step t a).1, (step t a).2) := by simp [stepFold]
  rw [h3, foldl_stepFold_acc]

theorem runClock_cons (step : ℚ → α → List Cue × ℚ) (t : ℚ) (a : α) (as : List α) :
    runClock step t (a :: as) = runClock step (step t a).2 as := by
  show (List.foldl (stepFold step) (stepFold step ([], t) a) as).2 = _
  have h3 : stepFold step ([], t) a = ((step t a).1, (step t a).2) := by simp [stepFold]
  rw [h3, foldl_stepFold_acc]

theorem chainFrom_nil (t t' : ℚ) : chainFrom t [] t' = true ↔ t = t' := by
  simp [chainFrom]

theorem chainFrom_append {t u v : ℚ} {a b : List Cue}
    (h1 : chainFrom t a u = true) (h2 : chainFrom u b v = true) :
    chainFrom t (a ++ b) v = true := by
  induction a generalizing t with
  | nil =>
    rw [chainFrom_nil] at h1
    subst h1
    simpa using h2
  | cons c cs ih =>
    simp only [chainFrom, Bool.and_eq_true, decide_eq_true_eq] at h1 ⊢
    exact ⟨h1.1, ih h1.2⟩

theorem chainFrom_head {t t' : ℚ} {c : Cue} {cs : List Cue}
    (h : chainFrom t (c :: cs) t' = true) : c.start = t := by
  simp only [chainFrom, Bool.and_eq_true, decide_eq_true_eq] at h
  exact h.1

theorem chainFrom_last {t t' : ℚ} : ∀ {l : List Cue} {c : Cue},
    chainFrom t l t' = true → l.getLast? = some c → c.endTime = t' := by
  intro l
  induction l generalizing t with
  | nil => intro c _ h2; simp at h2
  | cons d ds ih =>
    intro c h1 h2
    simp only [chainFrom, Bool.and_eq_true, decide_eq_true_eq] at h1
    cases ds with
    | nil =>
      simp only [List.getLast?_singleton, Option.some.injEq] at h2
      subst h2
      rw [chainFrom_nil] at h1
      exact h1.2
    | cons e es =>
      have h3 : (d :: e :: es).getLast? = (e :: es).getLast? := by
        simp [List.getLast?]
      rw [h3] at h2
      exact ih h1.2 h2

theorem chainFrom_chain' {t t' : ℚ} : ∀ {l : List Cue},
    chainFrom t l t' = true → List.Chain' (fun a b => a.endTime = b.start) l := by
  intro l
  induction l generalizing t with
  | nil => intro _; simp
  | cons c cs ih =>
    intro h
    simp only [chainFrom, Bool.and_eq_true, decide_eq_true_eq] at h
    cases cs with
    | nil => simp
    | cons d ds =>
      refine List.chain'_cons.mpr ⟨?_, ih h.2⟩
      exact (chainFrom_head h.2).symm

theorem runCues_emit (step : ℚ → α → List Cue × ℚ) (txt : α → List Char) (d : α → ℚ)
    (hstep : ∀ (t : ℚ) (a : α), step t a = ([⟨txt a, t, t + d a⟩], t + d a)) :
    ∀ (l : List α) (t : ℚ),
      runClock step t l = t + (l.map d).sum ∧
      chainFrom t (runCues step t l) (t + (l.map d).sum) = true ∧
      (runCues step t l).map (fun c => (c.text, c.endTime - c.start))
        = l.map (fun a => (txt a, d a)) ∧
      (runCues step t l).length = l.length := by
  intro l
  induction l with
  | nil =>
    intro t
    refine ⟨by simp [runClock], ?_, by simp [runCues], by simp [runCues]⟩
    simp only [List.map_nil, List.sum_nil, add_zero]
    exact (chainFrom_nil t t).mpr rfl
  | cons a as ih =>
    intro t
    rcases ih (t + d a) with ⟨ihclock, ihchain, ihmap, ihlen⟩
    have hc : runCues step t (a :: as) = ⟨txt a, t, t + d a⟩ :: runCues step (t + d a) as := by
      rw [runCues_cons, hstep]
      rfl
    have hk : runClock step t (a :: as) = runClock step (t + d a) as := by
      rw [runClock_cons, hstep]
    refine ⟨?_, ?_, ?_, ?_⟩
    · rw [hk, ihclock]
      simp only [List.map_cons, List.sum_cons]
      ring
    · rw [hc]
      simp only [List.map_cons, List.sum_cons]
      have : t + (d a + (as.map d).sum) = (t + d a) + (as.map d).sum := by ring
      rw [this]
      simp only [chainFrom, Bool.and_eq_true, decide_eq_true_eq]
      exact ⟨trivial, ihchain⟩
    · rw [hc]
      simp only [List.map_cons, ihmap]
      congr 2
      ring
    · rw [hc]
      simp [ihlen]

/-! Per-segment properties of the chunking loop. -/

theorem pySlice_srt_length (l : List α) (i chunkSize : Nat) :
    (pySlice i (min (i + chunkSize) l.length) l).length = min chunkSize (l.length - i) := by
  simp only [pySlice, List.length_take, List.length_drop]
  omega

theorem mem_pySlice {l : List α} {a : α} {i j : Nat} (h : a ∈ pySlice i j l) : a ∈ l := by
  simp only [pySlice] at h
  exact List.mem_of_mem_drop (List.mem_of_mem_take h)

theorem wordCount_chunk (text : List Char) (i chunkSize : Nat) :
    (pySplit (joinWords (pySlice i (min (i + chunkSize) (pySplit text).length) (pySplit text)))).length
      = min chunkSize ((pySplit text).length - i) := by
  rw [wordCount_joinWords, pySlice_srt_length]
  intro w hw
  exact pySplit_words text w (mem_pySlice hw)

theorem sum_map_mul_div (D W : ℚ) : ∀ xs : List ℕ,
    (xs.map (fun (x : ℕ) => D * ((x : ℚ) / W))).sum = D * (((xs.sum : ℕ) : ℚ) / W) := by
  intro xs
  induction xs with
  | nil => simp
  | cons x xs ih =>
    simp only [List.map_cons, List.sum_cons, ih]
    push_cast
    rw [add_div, mul_add]

theorem segmentCues_clock_sum (chunkSize : Nat) (hcs : 1 ≤ chunkSize)
    (text : List Char) (D : ℚ)
    (hW : chunkSize < (pySplit text).length) :
    ((pyRange (pySplit text).length chunkSize).map
      (fun i => D * (((pySplit (joinWords (pySlice i
        (min (i + chunkSize) (pySplit text).length) (pySplit text)))).length : ℚ)
          / ((pySplit text).length : ℚ)))).sum = D := by
  have hW1 : 1 ≤ (pySplit text).length := by omega
  have h1 : (pyRange (pySplit text).length chunkSize).map
      (fun i => D * (((pySplit (joinWords (pySlice i
        (min (i + chunkSize) (pySplit text).length) (pySplit text)))).length : ℚ)
          / ((pySplit text).length : ℚ)))
      = ((pyRange (pySplit text).length chunkSize).map
          (fun i => min chunkSize ((pySplit text).length - i))).map
            (fun (x : ℕ) => D * ((x : ℚ) / ((pySplit text).length : ℚ))) := by
    rw [List.map_map]
    apply List.map_congr_left
    intro i _
    simp only [Function.comp_apply]
    rw [wordCount_chunk]
  rw [h1, sum_map_mul_div, sum_min_pyRange chunkSize hcs]
  rw [div_self (show ((pySplit text).length : ℚ) ≠ 0 from Nat.cast_ne_zero.mpr (by omega)),
    mul_one]

theorem segmentCues_spec (chunkSize : Nat) (hcs : 1 ≤ chunkSize)
    (text : List Char) (D t : ℚ) :
    (segmentCues chunkSize text D t).2 = t + D ∧
    chainFrom t (segmentCues chunkSize text D t).1 (t + D) = true ∧
    (segmentCues chunkSize text D t).1 ≠ [] ∧
    (0 ≤ D → ∀ c ∈ (segmentCues chunkSize text D t).1, c.start ≤ c.endTime) := by
  by_cases hW : (pySplit text).length > chunkSize
  · have hunf : segmentCues chunkSize text D t
        = (runCues (srtChunkStep chunkSize (pySplit text) D) t
            (pyRange (pySplit text).length chunkSize),
           runClock (srtChunkStep chunkSize (pySplit text) D) t
            (pyRange (pySplit text).length chunkSize)) := by
      simp only [segmentCues, hW, if_true]
      rfl
    have hstep : ∀ (u : ℚ) (i : Nat),
        srtChunkStep chunkSize (pySplit text) D u i
          = ([⟨joinWords (pySlice i (min (i + chunkSize) (pySplit text).length) (pySplit text)), u,
              u + D * (((pySplit (joinWords (pySlice i
                (min (i + chunkSize) (pySplit text).length) (pySplit text)))).length : ℚ)
                  / ((pySplit text).length : ℚ))⟩],
             u + D * (((pySplit (joinWords (pySlice i
                (min (i + chunkSize) (pySplit text).length) (pySplit text)))).length : ℚ)
                  / ((pySplit text).length : ℚ))) := by
      intro u i
      rfl
    rcases runCues_emit (srtChunkStep chunkSize (pySplit text) D) _ _ hstep
      (pyRange (pySplit text).length chunkSize) t with ⟨hclock, hchain, hmap, hlen⟩
    have hsum := segmentCues_clock_sum chunkSize hcs text D hW
    have hrange_ne : pyRange (pySplit text).length chunkSize ≠ [] := by
      rw [pyRange_succ _ _ (by omega) hcs]
      simp
    refine ⟨?_, ?_, ?_, ?_⟩
    · rw [hunf]
      show runClock _ t _ = t + D
      rw [hclock, hsum]
    · rw [hunf]
      show chainFrom t (runCues _ t _) (t + D) = true
      rw [hsum] at hchain
      exact hchain
    · rw [hunf]
      show runCues _ t _ ≠ []
      intro hcon
      have := hlen
      rw [hcon] at this
      simp only [List.length_nil] at this
      exact hrange_ne (List.eq_nil_of_length_eq_zero this.symm)
    · rw [hunf]
      intro hD c hc
      show c.start ≤ c.endTime
      have hcmem : (c.text, c.endTime - c.start) ∈
          (runCues (srtChunkStep chunkSize (pySplit text) D) t
            (pyRange (pySplit text).length chunkSize)).map
              (fun c => (c.text, c.endTime - c.start)) :=
        List.mem_map_of_mem _ hc
      rw [hmap] at hcmem
      rcases List.mem_map.mp hcmem with ⟨i, _, hpair⟩
      have hdur : c.endTime - c.start
          = D * (((pySplit (joinWords (pySlice i
              (min (i + chunkSize) (pySplit text).length) (pySplit text)))).length : ℚ)
                / ((pySplit text).length : ℚ)) := (congrArg Prod.snd hpair).symm
      have hnn : 0 ≤ c.endTime - c.start := by
        rw [hdur]
        apply mul_nonneg hD
        apply div_nonneg
        · exact_mod_cast Nat.zero_le _
        · exact_mod_cast Nat.zero_le _
      linarith
  · have hunf : segmentCues chunkSize text D t = ([⟨text, t, t + D⟩], t + D) := by
      simp only [segmentCues, hW, if_false]
    refine ⟨by rw [hunf], ?_, by rw [hunf]; simp, ?_⟩
    · rw [hunf]
      simp [chainFrom]
    · rw [hunf]
      intro hD c hc
      simp only [List.mem_singleton] at hc
      subst hc
      show t ≤ t + D
      linarith

/-! The global contiguity of the whole multi-segment loop. -/

theorem runCues_segments (chunkSize : Nat) (hcs : 1 ≤ chunkSize) :
    ∀ (l : List (List Char × ℚ)) (t : ℚ),
      runClock (srtSegmentStep chunkSize) t l = t + (l.map Prod.snd).sum ∧
      chainFrom t (runCues (srtSegmentStep chunkSize) t l)
        (t + (l.map Prod.snd).sum) = true ∧
      ((∀ p ∈ l, 0 ≤ p.2) →
        ∀ c ∈ runCues (srtSegmentStep chunkSize) t l, c.start ≤ c.endTime) ∧
      (l ≠ [] → runCues (srtSegmentStep chunkSize) t l ≠ []) := by
  intro l
  induction l with
  | nil =>
    intro t
    refine ⟨by simp [runClock], ?_, by simp [runCues], by simp⟩
    simp only [List.map_nil, List.sum_nil, add_zero]
    exact (chainFrom_nil t t).mpr rfl
  | cons p ps ih =>
    intro t
    rcases segmentCues_spec chunkSize hcs p.1 p.2 t with ⟨hck, hch, hne, hnn⟩
    have hstep2 : (srtSegmentStep chunkSize t p).2 = t + p.2 := hck
    have hstep1 : (srtSegmentStep chunkSize t p).1 = (segmentCues chunkSize p.1 p.2 t).1 := rfl
    rcases ih (t + p.2) with ⟨ihclock, ihchain, ihnn, _⟩
    have hc : runCues (srtSegmentStep chunkSize) t (p :: ps)
        = (segmentCues chunkSize p.1 p.2 t).1
            ++ runCues (srtSegmentStep chunkSize) (t + p.2) ps := by
      rw [runCues_cons, hstep1, hstep2]
    have hk : runClock (srtSegmentStep chunkSize) t (p :: ps)
        = runClock (srtSegmentStep chunkSize) (t + p.2) ps := by
      rw [runClock_cons, hstep2]
    refine ⟨?_, ?_, ?_, ?_⟩
    · rw [hk, ihclock]
      simp only [List.map_cons, List.sum_cons]
      ring
    · rw [hc]
      have htot : t + ((p :: ps).map Prod.snd).sum = (t + p.2) + (ps.map Prod.snd).sum := by
        simp only [List.map_cons, List.sum_cons]
        ring
      rw [htot]
      exact chainFrom_append hch ihchain
    · intro hpos c hcmem
      rw [hc] at hcmem
      rcases List.mem_append.mp hcmem with hcm | hcm
      · exact hnn (hpos p (List.mem_cons_self p ps)) c hcm
      · exact ihnn (fun q hq => hpos q (List.mem_cons_of_mem p hq)) c hcm
    · intro _
      rw [hc]
      intro hcon
      rcases List.append_eq_nil.mp hcon with ⟨h1, _⟩
      exact hne h1

/-- Claim C2: when a narration segment's word count W exceeds `chunk_size`,
the timing engine splits the words into consecutive chunks of at most
`chunk_size` words (the last chunk may be shorter), gives a chunk of `wc`
words the duration `D * wc / W`, keeps the cues contiguous across the
segment's total duration, and emits `ceil(W / chunk_size)` cues; the
25-word, 10-second, chunk-size-10 example yields exactly the cues
(5,9), (9,13), (13,15) with word counts 10, 10, 5. -/
theorem c2_chunking (chunkSize : Nat) (text : List Char) (D t : ℚ)
    (hcs : 1 ≤ chunkSize) (hW : chunkSize < (pySplit text).length) :
    ((segmentCues chunkSize text D t).1.map
        (fun c => ((pySplit c.text).length, c.endTime - c.start))
      = (pyRange (pySplit text).length chunkSize).map
          (fun i => (min chunkSize ((pySplit text).length - i),
            D * (((min chunkSize ((pySplit text).length - i) : ℕ) : ℚ)
              / ((pySplit text).length : ℚ)))) ∧
    (segmentCues chunkSize text D t).1.map (fun c => c.text)
      = (pyRange (pySplit text).length chunkSize).map
          (fun i => joinWords (pySlice i (min (i + chunkSize) (pySplit text).length)
            (pySplit text))) ∧
    chainFrom t (segmentCues chunkSize text D t).1 (t + D) = true ∧
    (segmentCues chunkSize text D t).1.length
      = ((pySplit text).length + chunkSize - 1) / chunkSize) ∧
    ((segmentCues 10 (joinWords (List.replicate 25 (str "w"))) 10 5).1.map
        (fun c => (pySplit c.text).length) = [10, 10, 5] ∧
     (segmentCues 10 (joinWords (List.replicate 25 (str "w"))) 10 5).1.map
        (fun c => (c.start, c.endTime)) = [(5, 9), (9, 13), (13, 15)]) := by
  have hstep : ∀ (u : ℚ) (i : Nat),
      srtChunkStep chunkSize (pySplit text) D u i
        = ([⟨joinWords (pySlice i (min (i + chunkSize) (pySplit text).length) (pySplit text)), u,
            u + D * (((pySplit (joinWords (pySlice i
              (min (i + chunkSize) (pySplit text).length) (pySplit text)))).length : ℚ)
                / ((pySplit text).length : ℚ))⟩],
           u + D * (((pySplit (joinWords (pySlice i
              (min (i + chunkSize) (pySplit text).length) (pySplit text)))).length : ℚ)
                / ((pySplit text).length : ℚ))) := fun u i => rfl
  rcases runCues_emit (srtChunkStep chunkSize (pySplit text) D) _ _ hstep
    (pyRange (pySplit text).length chunkSize) t with ⟨hclock, hchain, hmap, hlen⟩
  have hcues : (segmentCues chunkSize text D t).1
      = runCues (srtChunkStep chunkSize (pySplit text) D) t
          (pyRange (pySplit text).length chunkSize) := by
    simp only [segmentCues, hW, if_true]
    rfl
  refine ⟨⟨?_, ?_, ?_, ?_⟩, by decide, ?_⟩
  · rw [hcues]
    have h2 := congrArg (List.map (fun (p : List Char × ℚ) => ((pySplit p.1).length, p.2))) hmap
    rw [List.map_map, List.map_map] at h2
    refine Eq.trans h2 ?_
    apply List.map_congr_left
    intro i _
    simp only [Function.comp_apply]
    rw [wordCount_chunk]
  · rw [hcues]
    have h2 := congrArg (List.map Prod.fst) hmap
    rw [List.map_map, List.map_map] at h2
    exact h2
  · exact (segmentCues_spec chunkSize hcs text D t).2.1
  · rw [hcues, hlen]
    simp [pyRange]
  · have h : (segmentCues 10 (joinWords (List.replicate 25 (str "w"))) 10 5).1.map
        (fun c => (c.start, c.endTime))
      = [((5 : ℚ), 5 + 10 * (((10 : ℕ) : ℚ) / ((25 : ℕ) : ℚ))),
         (5 + 10 * (((10 : ℕ) : ℚ) / ((25 : ℕ) : ℚ)),
          5 + 10 * (((10 : ℕ) : ℚ) / ((25 : ℕ) : ℚ))
            + 10 * (((10 : ℕ) : ℚ) / ((25 : ℕ) : ℚ))),
         (5 + 10 * (((10 : ℕ) : ℚ) / ((25 : ℕ) : ℚ))
            + 10 * (((10 : ℕ) : ℚ) / ((25 : ℕ) : ℚ)),
          5 + 10 * (((10 : ℕ) : ℚ) / ((25 : ℕ) : ℚ))
            + 10 * (((10 : ℕ) : ℚ) / ((25 : ℕ) : ℚ))
            + 10 * (((5 : ℕ) : ℚ) / ((25 : ℕ) : ℚ)))] := rfl
    rw [h]
    norm_num

/-- Claim C2 (witness): the chunking theorem applied at the concrete 25-word
segment of duration 10 with chunk size 10, starting at the intro offset 5. -/
theorem c2_chunking_witness :
    (1 ≤ 10 ∧ 10 < (pySplit (joinWords (List.replicate 25 (str "w")))).length) ∧
    chainFrom 5 (segmentCues 10 (joinWords (List.replicate 25 (str "w"))) 10 5).1
      ((5 : ℚ) + 10) = true ∧
    (segmentCues 10 (joinWords (List.replicate 25 (str "w"))) 10 5).1.map
        (fun c => (c.start, c.endTime)) = [(5, 9), (9, 13), (13, 15)] :=
  ⟨⟨by decide, by decide⟩,
   (c2_chunking 10 (joinWords (List.replicate 25 (str "w"))) 10 5
     (by decide) (by decide)).1.2.2.1,
   (c2_chunking 10 (joinWords (List.replicate 25 (str "w"))) 10 5
     (by decide) (by decide)).2.2⟩

/-- Claim C3: the cue sequence computed from index-aligned texts and positive
durations is contiguous from the intro offset 5: each cue starts where the
previous one ended, the first cue starts at 5, no cue has negative length,
and the last cue ends exactly at `5 + sum(durations)`. -/
theorem c3_contiguity (chunkSize : Nat) (texts : List (List Char)) (durs : List ℚ)
    (hcs : 1 ≤ chunkSize) (hlen : texts.length = durs.length)
    (hpos : ∀ d ∈ durs, 0 < d) :
    chainFrom 5 (createSrtCues chunkSize 5 texts durs) (5 + durs.sum) = true ∧
    List.Chain' (fun a b => a.endTime = b.start) (createSrtCues chunkSize 5 texts durs) ∧
    (∀ c rest, createSrtCues chunkSize 5 texts durs = c :: rest → c.start = 5) ∧
    (∀ c, (createSrtCues chunkSize 5 texts durs).getLast? = some c →
      c.endTime = 5 + durs.sum) ∧
    (∀ c ∈ createSrtCues chunkSize 5 texts durs, c.start ≤ c.endTime) := by
  have hzip : (texts.zip durs).map Prod.snd = durs :=
    List.map_snd_zip texts durs (by omega)
  rcases runCues_segments chunkSize hcs (texts.zip durs) 5 with ⟨_, hchain, hnn, _⟩
  rw [hzip] at hchain
  have hcr : createSrtCues chunkSize 5 texts durs
      = runCues (srtSegmentStep chunkSize) 5 (texts.zip durs) := rfl
  rw [← hcr] at hchain
  refine ⟨hchain, chainFrom_chain' hchain, ?_, ?_, ?_⟩
  · intro c rest h
    rw [h] at hchain
    exact chainFrom_head hchain
  · intro c h
    exact chainFrom_last hchain h
  · intro c hc
    rw [hcr] at hc
    refine hnn ?_ c hc
    intro p hp
    exact le_of_lt (hpos p.2 (List.of_mem_zip hp).2)

/-- Claim C3 (witness): the contiguity theorem applied to two concrete
segments of durations 3 and 4. -/
theorem c3_contiguity_witness :
    (1 ≤ 10 ∧ ([str "hello world", str "b"] : List (List Char)).length
        = ([3, 4] : List ℚ).length ∧ ∀ d ∈ ([3, 4] : List ℚ), 0 < d) ∧
    chainFrom 5 (createSrtCues 10 5 [str "hello world", str "b"] [3, 4])
      (5 + ([3, 4] : List ℚ).sum) = true :=
  ⟨⟨by decide, by decide, by decide⟩,
   (c3_contiguity 10 [str "hello world", str "b"] [3, 4]
     (by decide) (by decide) (by decide)).1⟩

/-- Claim C4 (counterexample): a length mismatch between texts and durations
is not fatal and raises nothing: with two texts and one duration the engine
happily produces the cue for the paired prefix. No `AlignmentError` exists
anywhere in the source. -/
theorem c4_counterexample :
    createSrtCues 10 5 [str "alpha", str "beta"] [3] = [⟨str "alpha", 5, 8⟩] ∧
    createSrtCues 10 5 [str "alpha", str "beta"] [3] ≠ [] := by
  have h : createSrtCues 10 5 [str "alpha", str "beta"] [3]
      = [⟨str "alpha", 5, 5 + 3⟩] := rfl
  rw [h]
  norm_num

theorem zip_eq_zip_take_min : ∀ (l₁ : List α) (l₂ : List β),
    l₁.zip l₂ = (l₁.take (min l₁.length l₂.length)).zip
      (l₂.take (min l₁.length l₂.length)) := by
  intro l₁
  induction l₁ with
  | nil => intro l₂; simp
  | cons a as ih =>
    intro l₂
    cases l₂ with
    | nil => simp
    | cons b bs =>
      simp only [List.zip_cons_cons, List.length_cons]
      have hmin : min (as.length + 1) (bs.length + 1) = min as.length bs.length + 1 := by
        omega
      rw [hmin]
      simp only [List.take_succ_cons, List.zip_cons_cons]
      rw [← ih bs]

/-- Claim C4 (amended): when the text and duration sequences have different
lengths, the timing engine silently truncates both to the shorter length (the
`zip` of the source) and computes cues for the paired prefix only; no error
is raised. -/
theorem c4_amended (chunkSize : Nat) (off : ℚ) (texts : List (List Char))
    (durs : List ℚ) :
    createSrtCues chunkSize off texts durs
      = createSrtCues chunkSize off (texts.take (min texts.length durs.length))
          (durs.take (min texts.length durs.length)) := by
  unfold createSrtCues
  congr 2
  exact zip_eq_zip_take_min texts durs

/-! Lemmas about the Timeline Assembler. -/

theorem segmentClipsAndDurs_total (probe : File → Option ℚ) (d : File → ℚ) :
    ∀ (pairs : List (File × File)), (∀ p ∈ pairs, probe p.2 = some (d p.2)) →
      segmentClipsAndDurs probe pairs
        = some (pairs.map (fun p => Clip.segment p.1 p.2 (d p.2)),
            pairs.map (fun p => d p.2)) := by
  intro pairs
  induction pairs with
  | nil => intro _; rfl
  | cons p ps ih =>
    intro h
    have hp : probe p.2 = some (d p.2) := h p (List.mem_cons_self p ps)
    have hcons : segmentClipsAndDurs probe (p :: ps)
        = match probe p.2 with
          | none => none
          | some x =>
            (segmentClipsAndDurs probe ps).map
              (fun r => (Clip.segment p.1 p.2 x :: r.1, x :: r.2)) := rfl
    rw [hcons, hp, ih (fun q hq => h q (List.mem_cons_of_mem p hq))]
    rfl

theorem createVideo_ok_eq (imageFolderArg : Option FolderState) (env : VideoEnv)
    (withSubs : Bool) (d : File → ℚ)
    (h1 : env.audioFolder.isPresent = true) (h2 : env.scriptOk = true)
    (h3 : env.fontOk = true) (h4 : env.introOk = true)
    (hprobe : ∀ p ∈ (selectImages imageFolderArg (videoAudioFiles env)).zip
        (videoAudioFiles env), env.probe p.2 = some (d p.2)) :
    createVideo imageFolderArg env withSubs
      = .ok ⟨Clip.intro (extractTopic env.script) 5
          :: ((selectImages imageFolderArg (videoAudioFiles env)).zip
              (videoAudioFiles env)).map (fun p => Clip.segment p.1 p.2 (d p.2))
          ++ [Clip.outro (str "MADE BY TEAM FRAGMENT") 5],
         if withSubs then
           videoSubtitleClips (jsonExtract env.script)
             (((selectImages imageFolderArg (videoAudioFiles env)).zip
               (videoAudioFiles env)).map (fun p => d p.2))
         else []⟩ := by
  unfold createVideo
  rw [h1, h2, h3, h4]
  simp only [Bool.true_eq_false, if_false]
  rw [segmentClipsAndDurs_total env.probe d _ hprobe]

theorem totalDuration_timeline (ti tout : List Char) (pairs : List (File × File))
    (d : File → ℚ) :
    totalDuration (Clip.intro ti 5
        :: pairs.map (fun p => Clip.segment p.1 p.2 (d p.2))
        ++ [Clip.outro tout 5])
      = 5 + (pairs.map (fun p => d p.2)).sum + 5 := by
  have hcomp : (Clip.duration ∘ fun p : File × File => Clip.segment p.1 p.2 (d p.2))
      = fun p : File × File => d p.2 := rfl
  simp only [totalDuration, List.map_cons, List.map_append, List.sum_cons,
    List.sum_append, List.map_map, hcomp, List.map_nil, List.sum_nil]
  simp only [Clip.duration]
  ring

/-- Claim C6: the composed video is the gapless concatenation of a 5-second
intro card, one still-image clip per positionally zipped visual+audio pair
held exactly for its audio's probed duration, and a 5-second outro card; the
total timeline duration is `5 + sum(paired durations) + 5`, and a run with
two narration segments of 3s and 4s yields clip durations [5, 3, 4, 5]
totalling 17 seconds. -/
theorem c6_timeline (imageFolderArg : Option FolderState) (env : VideoEnv)
    (withSubs : Bool) (d : File → ℚ)
    (h1 : env.audioFolder.isPresent = true) (h2 : env.scriptOk = true)
    (h3 : env.fontOk = true) (h4 : env.introOk = true)
    (hprobe : ∀ p ∈ (selectImages imageFolderArg (videoAudioFiles env)).zip
        (videoAudioFiles env), env.probe p.2 = some (d p.2)) :
    (createVideo imageFolderArg env withSubs
      = .ok ⟨Clip.intro (extractTopic env.script) 5
          :: ((selectImages imageFolderArg (videoAudioFiles env)).zip
              (videoAudioFiles env)).map (fun p => Clip.segment p.1 p.2 (d p.2))
          ++ [Clip.outro (str "MADE BY TEAM FRAGMENT") 5],
         if withSubs then
           videoSubtitleClips (jsonExtract env.script)
             (((selectImages imageFolderArg (videoAudioFiles env)).zip
               (videoAudioFiles env)).map (fun p => d p.2))
         else []⟩ ∧
    totalDuration (Clip.intro (extractTopic env.script) 5
        :: ((selectImages imageFolderArg (videoAudioFiles env)).zip
            (videoAudioFiles env)).map (fun p => Clip.segment p.1 p.2 (d p.2))
        ++ [Clip.outro (str "MADE BY TEAM FRAGMENT") 5])
      = 5 + (((selectImages imageFolderArg (videoAudioFiles env)).zip
          (videoAudioFiles env)).map (fun p => d p.2)).sum + 5) ∧
    ((createVideo
          (some ⟨true, [⟨str "scene_1", str ".jpg"⟩, ⟨str "scene_2", str ".jpg"⟩]⟩)
          ⟨⟨true, [⟨str "segment_1", str ".mp3"⟩, ⟨str "segment_2", str ".mp3"⟩]⟩,
           true, true, true, .parsed (some (str "X")) [],
           fun f => if f.stem = str "segment_1" then some 3 else some 4⟩
          false).toOption.map (fun r => r.clips.map Clip.duration)
      = some [5, 3, 4, 5] ∧
    ([5, 3, 4, 5] : List ℚ).sum = 17) := by
  refine ⟨⟨createVideo_ok_eq imageFolderArg env withSubs d h1 h2 h3 h4 hprobe,
    totalDuration_timeline _ _ _ d⟩, by decide, by norm_num⟩

/-- Claim C6 (witness): the timeline theorem applied to the concrete
two-segment run with probed durations 3 and 4. -/
theorem c6_timeline_witness :
    createVideo
        (some ⟨true, [⟨str "scene_1", str ".jpg"⟩, ⟨str "scene_2", str ".jpg"⟩]⟩)
        ⟨⟨true, [⟨str "segment_1", str ".mp3"⟩, ⟨str "segment_2", str ".mp3"⟩]⟩,
         true, true, true, .parsed (some (str "X")) [],
         fun f => if f.stem = str "segment_1" then some 3 else some 4⟩
        false
      = .ok ⟨[Clip.intro (str "X") 5,
          Clip.segment ⟨str "scene_1", str ".jpg"⟩ ⟨str "segment_1", str ".mp3"⟩ 3,
          Clip.segment ⟨str "scene_2", str ".jpg"⟩ ⟨str "segment_2", str ".mp3"⟩ 4,
          Clip.outro (str "MADE BY TEAM FRAGMENT") 5], []⟩ :=
  (c6_timeline
    (some ⟨true, [⟨str "scene_1", str ".jpg"⟩, ⟨str "scene_2", str ".jpg"⟩]⟩)
    ⟨⟨true, [⟨str "segment_1", str ".mp3"⟩, ⟨str "segment_2", str ".mp3"⟩]⟩,
     true, true, true, .parsed (some (str "X")) [],
     fun f => if f.stem = str "segment_1" then some 3 else some 4⟩
    false
    (fun f => if f.stem = str "segment_1" then 3 else 4)
    rfl rfl rfl rfl (by decide)).1.1

theorem selectImages_placeholder (imageFolderArg : Option FolderState)
    (audioFiles : List File)
    (himg : imageFolderArg = none ∨
      ∃ f, imageFolderArg = some f ∧ (f.isPresent = false ∨ f.entries = [])) :
    selectImages imageFolderArg audioFiles
      = List.replicate audioFiles.length placeholderFile := by
  rcases himg with rfl | ⟨f, rfl, hf⟩
  · rfl
  · simp only [selectImages]
    rw [if_pos hf]

theorem zip_replicate_left (x : α) : ∀ (l : List β),
    (List.replicate l.length x).zip l = l.map (fun b => (x, b)) := by
  intro l
  induction l with
  | nil => rfl
  | cons b bs ih =>
    simp only [List.length_cons, List.replicate_succ, List.zip_cons_cons, List.map_cons]
    rw [ih]

/-- Claim C5: with no images (folder not supplied, absent, or empty),
`create_video` synthesizes the placeholder image path and reuses it for every
audio segment: the run succeeds, the number of per-segment clips equals the
number of audio files, and every segment clip's image is the placeholder. -/
theorem c5_placeholder (imageFolderArg : Option FolderState) (env : VideoEnv)
    (withSubs : Bool) (d : File → ℚ)
    (h1 : env.audioFolder.isPresent = true) (h2 : env.scriptOk = true)
    (h3 : env.fontOk = true) (h4 : env.introOk = true)
    (hprobe : ∀ p ∈ (selectImages imageFolderArg (videoAudioFiles env)).zip
        (videoAudioFiles env), env.probe p.2 = some (d p.2))
    (himg : imageFolderArg = none ∨
      ∃ f, imageFolderArg = some f ∧ (f.isPresent = false ∨ f.entries = [])) :
    ∃ r, createVideo imageFolderArg env withSubs = .ok r ∧
      (r.clips.filter Clip.isSegment).length = (videoAudioFiles env).length ∧
      (∀ c ∈ r.clips, c.isSegment = true → c.image = placeholderFile) := by
  have hsel := selectImages_placeholder imageFolderArg (videoAudioFiles env) himg
  have hzip : (selectImages imageFolderArg (videoAudioFiles env)).zip (videoAudioFiles env)
      = (videoAudioFiles env).map (fun b => (placeholderFile, b)) := by
    rw [hsel, zip_replicate_left]
  refine ⟨_, createVideo_ok_eq imageFolderArg env withSubs d h1 h2 h3 h4 hprobe, ?_, ?_⟩
  · show (List.filter Clip.isSegment
        (Clip.intro (extractTopic env.script) 5
          :: ((selectImages imageFolderArg (videoAudioFiles env)).zip
              (videoAudioFiles env)).map (fun p => Clip.segment p.1 p.2 (d p.2))
          ++ [Clip.outro (str "MADE BY TEAM FRAGMENT") 5])).length
      = (videoAudioFiles env).length
    rw [hzip, List.map_map]
    simp only [List.filter_cons, List.filter_append, Clip.isSegment, Bool.false_eq_true,
      if_false, List.filter_nil, List.append_nil]
    have hmid : List.filter Clip.isSegment
        ((videoAudioFiles env).map
          ((fun p : File × File => Clip.segment p.1 p.2 (d p.2))
            ∘ (fun b => (placeholderFile, b))))
        = (videoAudioFiles env).map
          ((fun p : File × File => Clip.segment p.1 p.2 (d p.2))
            ∘ (fun b => (placeholderFile, b))) := by
      apply List.filter_eq_self.mpr
      intro c hc
      rcases List.mem_map.mp hc with ⟨b, _, rfl⟩
      rfl
    rw [hmid]
    simp
  · intro c hc hseg
    show c.image = placeholderFile
    rcases List.mem_cons.mp hc with rfl | hc2
    · simp [Clip.isSegment] at hseg
    · rcases List.mem_append.mp hc2 with hc3 | hc3
      · rw [hzip, List.map_map] at hc3
        rcases List.mem_map.mp hc3 with ⟨b, _, rfl⟩
        rfl
      · simp only [List.mem_singleton] at hc3
        subst hc3
        simp [Clip.isSegment] at hseg

/-- Claim C5 (witness): the placeholder theorem applied to the unsupplied
image-folder case with two audio files. -/
theorem c5_placeholder_witness :
    ∃ r, createVideo none
        ⟨⟨true, [⟨str "segment_1", str ".mp3"⟩, ⟨str "segment_2", str ".mp3"⟩]⟩,
         true, true, true, .parsed (some (str "X")) [],
         fun _ => some 3⟩
        false
      = .ok r ∧
      (r.clips.filter Clip.isSegment).length
        = (videoAudioFiles
            ⟨⟨true, [⟨str "segment_1", str ".mp3"⟩, ⟨str "segment_2", str ".mp3"⟩]⟩,
             true, true, true, .parsed (some (str "X")) [],
             fun _ => some 3⟩).length ∧
      (∀ c ∈ r.clips, c.isSegment = true → c.image = placeholderFile) :=
  c5_placeholder none
    ⟨⟨true, [⟨str "segment_1", str ".mp3"⟩, ⟨str "segment_2", str ".mp3"⟩]⟩,
     true, true, true, .parsed (some (str "X")) [], fun _ => some 3⟩
    false (fun _ => 3) rfl rfl rfl rfl (fun _ _ => rfl) (Or.inl rfl)

/-! Lemmas comparing the two duplicated timing loops. -/

theorem pySlice_clamp (l : List α) (i k : Nat) :
    pySlice i (i + k) l = pySlice i (min (i + k) l.length) l := by
  unfold pySlice
  rcases Nat.le_total (i + k) l.length with h | h
  · rw [Nat.min_eq_left h]
  · rw [Nat.min_eq_right h]
    have h1 : i + k - i = k := by omega
    rw [h1]
    rw [List.take_of_length_le (by rw [List.length_drop]; omega)]
    rw [List.take_of_length_le (by rw [List.length_drop])]

theorem videoChunkStep_eq (words : List (List Char)) (D t : ℚ) (i : Nat) :
    videoChunkStep words D t i = srtChunkStep 10 words D t i := by
  unfold videoChunkStep srtChunkStep
  rw [pySlice_clamp]

theorem videoSegmentStep_eq (t : ℚ) (p : List Char × ℚ) :
    videoSegmentStep t p = srtSegmentStep 10 t p := by
  have hfun : videoChunkStep (pySplit p.1) p.2 = srtChunkStep 10 (pySplit p.1) p.2 :=
    funext fun u => funext fun i => videoChunkStep_eq (pySplit p.1) p.2 u i
  simp only [videoSegmentStep, srtSegmentStep, segmentCues, hfun]

/-- Claim C7 (counterexample): with the same script texts, the same audio
files (probing 3s and 4s), the same chunk size 10 and the same intro offset 5,
the burned-in caption path of `create_video` emits one cue — its durations are
truncated to the zip of the single image with the audio list — while
`create_complete_srt` emits two; the cue sequences differ. -/
theorem c7_counterexample :
    (createVideo (some ⟨true, [⟨str "scene_1", str ".jpg"⟩]⟩)
        ⟨⟨true, [⟨str "segment_1", str ".mp3"⟩, ⟨str "segment_2", str ".mp3"⟩]⟩,
         true, true, true,
         .parsed (some (str "T")) [⟨some (str "hello")⟩, ⟨some (str "world")⟩],
         fun f => if f.stem = str "segment_1" then some 3 else some 4⟩
        true).toOption.map VideoResult.captions
      = some [⟨str "hello", 5, 5 + 3⟩] ∧
    createCompleteSrtCues 10
        ⟨true, .parsed (some (str "T")) [⟨some (str "hello")⟩, ⟨some (str "world")⟩],
         ⟨true, [⟨str "segment_1", str ".mp3"⟩, ⟨str "segment_2", str ".mp3"⟩]⟩,
         fun f => if f.stem = str "segment_1" then some 3 else some 4, true⟩
      = [⟨str "hello", 5, 5 + 3⟩, ⟨str "world", 5 + 3, 5 + 3 + 4⟩] ∧
    (some [⟨str "hello", 5, 5 + 3⟩] : Option (List Cue))
      ≠ some [⟨str "hello", 5, 5 + 3⟩, ⟨str "world", 5 + 3, 5 + 3 + 4⟩] := by
  refine ⟨rfl, rfl, ?_⟩
  intro h
  have h2 := congrArg (Option.map List.length) h
  simp at h2

/-- Claim C7 (amended): the two duplicated timing loops compute the same
function of (texts, durations): for every text and duration list the
burned-in caption cues of `create_video` equal the cues of
`create_complete_srt` at chunk size 10 and intro offset 5. The two pipeline
paths therefore agree whenever `create_video` pairs every audio file, i.e.
when there are at least as many images as audio files; with fewer images the
burned-in path sees only the zipped prefix of the durations and the cue
sequences diverge. -/
theorem c7_amended :
    (∀ (texts : List (List Char)) (durs : List ℚ),
      videoSubtitleClips texts durs = createSrtCues 10 5 texts durs) ∧
    (∀ (images audioFiles : List File) (dp : File → ℚ) (texts : List (List Char)),
      audioFiles.length ≤ images.length →
      videoSubtitleClips texts
          (createVideoAudioDurations images audioFiles (fun f => some (dp f)))
        = createSrtCues 10 5 texts (audioFiles.map dp)) := by
  have hfun : videoSegmentStep = srtSegmentStep 10 :=
    funext fun t => funext fun p => videoSegmentStep_eq t p
  have hmain : ∀ (texts : List (List Char)) (durs : List ℚ),
      videoSubtitleClips texts durs = createSrtCues 10 5 texts durs := by
    intro texts durs
    unfold videoSubtitleClips createSrtCues
    rw [hfun]
  refine ⟨hmain, ?_⟩
  intro images audioFiles dp texts hlen
  have hdurs : createVideoAudioDurations images audioFiles (fun f => some (dp f))
      = audioFiles.map dp := by
    unfold createVideoAudioDurations
    have h1 : (images.zip audioFiles).filterMap (fun p => some (dp p.2))
        = (images.zip audioFiles).map (fun p => dp p.2) := by
      exact congrFun (List.filterMap_eq_map (fun p : File × File => dp p.2))
        (images.zip audioFiles)
    rw [h1]
    have h3 := congrArg (List.map dp) (List.map_snd_zip images audioFiles hlen)
    rw [List.map_map] at h3
    exact h3
  rw [hdurs]
  exact hmain texts (audioFiles.map dp)

/-- Claim C7 (witness): the amended equivalence applied to one concrete text
with two images and one audio file. -/
theorem c7_amended_witness :
    ([⟨str "segment_1", str ".mp3"⟩] : List File).length
        ≤ ([⟨str "scene_1", str ".jpg"⟩, ⟨str "scene_2", str ".jpg"⟩] : List File).length ∧
    videoSubtitleClips [str "x"]
        (createVideoAudioDurations
          [⟨str "scene_1", str ".jpg"⟩, ⟨str "scene_2", str ".jpg"⟩]
          [⟨str "segment_1", str ".mp3"⟩] (fun f => some ((fun _ => (3 : ℚ)) f)))
      = createSrtCues 10 5 [str "x"]
          (([⟨str "segment_1", str ".mp3"⟩] : List File).map (fun _ => (3 : ℚ))) :=
  ⟨by decide,
   c7_amended.2 [⟨str "scene_1", str ".jpg"⟩, ⟨str "scene_2", str ".jpg"⟩]
     [⟨str "segment_1", str ".mp3"⟩] (fun _ => (3 : ℚ)) [str "x"] (by decide)⟩

/-! Lemmas about the IMAGING loop. -/

theorem imagingCount_allbut (env : ImagingEnv) (j : Nat) :
    ∀ (scenes : List Scene) (k : Nat),
      (∀ i (h : i < scenes.length), sceneSuccess env (k + i) (scenes.get ⟨i, h⟩)
        = decide (k + i ≠ j)) →
      imagingCount env k scenes
        = scenes.length - (if k ≤ j ∧ j < k + scenes.length then 1 else 0) := by
  intro scenes
  induction scenes with
  | nil =>
    intro k _
    simp [imagingCount]
  | cons s rest ih =>
    intro k h
    have hhead : sceneSuccess env k s = decide (k ≠ j) := by
      have h0 := h 0 (by simp)
      simpa using h0
    have htail : ∀ i (hi : i < rest.length),
        sceneSuccess env (k + 1 + i) (rest.get ⟨i, hi⟩) = decide (k + 1 + i ≠ j) := by
      intro i hi
      have hsucc := h (i + 1) (by simp only [List.length_cons]; omega)
      have e : k + (i + 1) = k + 1 + i := by omega
      rw [e] at hsucc
      exact hsucc
    show (if sceneSuccess env k s = true then 1 else 0) + imagingCount env (k + 1) rest = _
    rw [hhead, ih (k + 1) htail]
    by_cases hkj : k = j
    · have hd : (decide (k ≠ j)) = false := by simp [hkj]
      rw [hd]
      simp only [Bool.false_eq_true, if_false, List.length_cons]
      rw [if_neg (by omega), if_pos (by omega)]
      omega
    · have hd : (decide (k ≠ j)) = true := by simp [hkj]
      rw [hd]
      simp only [if_true, List.length_cons]
      by_cases hrange : k + 1 ≤ j ∧ j < k + 1 + rest.length
      · rw [if_pos hrange, if_pos (by omega)]
        omega
      · rw [if_neg hrange, if_neg (by omega)]
        omega

/-- Claim C8: the IMAGING stage signals failure (returns `False`) exactly
when it produced zero images, and a single failing generation call among N
cues — all others succeeding — yields N-1 images without aborting the stage,
which then succeeds if and only if N is at least 2. -/
theorem c8_imaging :
    (∀ (script : Option (Option (List Scene))) (env : ImagingEnv),
      mainGenerateImages script env = true ↔ 0 < imagesProduced script env) ∧
    (∀ (scenes : List Scene) (env : ImagingEnv) (j : Nat), j < scenes.length →
      (∀ i (h : i < scenes.length), sceneSuccess env i (scenes.get ⟨i, h⟩)
        = decide (i ≠ j)) →
      imagesProduced (some (some scenes)) env = scenes.length - 1 ∧
      (mainGenerateImages (some (some scenes)) env = true ↔ 2 ≤ scenes.length)) := by
  constructor
  · intro script env
    match script with
    | none => simp [mainGenerateImages, imagesProduced]
    | some none => simp [mainGenerateImages, imagesProduced]
    | some (some scenes) => simp [mainGenerateImages, imagesProduced]
  · intro scenes env j hj h
    have hc := imagingCount_allbut env j scenes 0 (by
      intro i hi
      have := h i hi
      simpa using this)
    rw [if_pos (by omega)] at hc
    have hcount : imagesProduced (some (some scenes)) env = scenes.length - 1 := hc
    refine ⟨hcount, ?_⟩
    have hmain : mainGenerateImages (some (some scenes)) env
        = decide (0 < imagingCount env 0 scenes) := rfl
    rw [hmain, hc]
    simp only [decide_eq_true_eq]
    omega

/-- Claim C8 (witness): three scenes, the middle generation call failing
(empty URL list), applied to the single-failure theorem: two images result
and the stage still succeeds. -/
theorem c8_imaging_witness :
    imagesProduced
        (some (some [⟨some (str "a"), none⟩, ⟨some (str "b"), none⟩,
          ⟨some (str "c"), none⟩]))
        ⟨fun i => if i = 1 then [] else [str "u"], fun _ => true⟩ = 2 ∧
    mainGenerateImages
        (some (some [⟨some (str "a"), none⟩, ⟨some (str "b"), none⟩,
          ⟨some (str "c"), none⟩]))
        ⟨fun i => if i = 1 then [] else [str "u"], fun _ => true⟩ = true :=
  ⟨(c8_imaging.2 [⟨some (str "a"), none⟩, ⟨some (str "b"), none⟩, ⟨some (str "c"), none⟩]
      ⟨fun i => if i = 1 then [] else [str "u"], fun _ => true⟩ 1
      (by decide) (by decide)).1,
   (c8_imaging.2 [⟨some (str "a"), none⟩, ⟨some (str "b"), none⟩, ⟨some (str "c"), none⟩]
      ⟨fun i => if i = 1 then [] else [str "u"], fun _ => true⟩ 1
      (by decide) (by decide)).2.mpr (by decide)⟩

/-- Claim C9 (counterexample): two different job submissions use the same
scratch image workspace and the same scratch audio workspace — the paths come
from the shared global settings object and do not depend on the request. -/
theorem c9_counterexample :
    jobImagesWorkspace ⟨str "base"⟩ ⟨str "Cats", 60⟩
      = jobImagesWorkspace ⟨str "base"⟩ ⟨str "Dogs", 60⟩ ∧
    jobAudioWorkspace ⟨str "base"⟩ ⟨str "Cats", 60⟩
      = jobAudioWorkspace ⟨str "base"⟩ ⟨str "Dogs", 60⟩ ∧
    (⟨str "Cats", 60⟩ : VideoRequest) ≠ (⟨str "Dogs", 60⟩ : VideoRequest) :=
  ⟨rfl, rfl, by decide⟩

/-- Claim C9 (amended): all jobs share one global scratch image directory and
one global scratch audio directory (`settings.IMAGES_DIR` / `AUDIO_DIR`), so
concurrent jobs do operate on each other's files during CLEANING and segment
generation; only the subtitle output path varies between jobs, and it is
distinct exactly when the 30-character cleaned topics differ. -/
theorem c9_amended (s : Settings) (r1 r2 : VideoRequest) :
    jobImagesWorkspace s r1 = jobImagesWorkspace s r2 ∧
    jobAudioWorkspace s r1 = jobAudioWorkspace s r2 ∧
    (jobSrtPath s r1 = jobSrtPath s r2 ↔ cleanTopic r1.topic = cleanTopic r2.topic) := by
  refine ⟨rfl, rfl, ?_, ?_⟩
  · intro h
    unfold jobSrtPath at h
    have h1 := List.append_cancel_right h
    exact List.append_cancel_left h1
  · intro h
    unfold jobSrtPath
    rw [h]

/-- Claim C9 (witness): the amended theorem applied to two concrete requests
with different topics. -/
theorem c9_amended_witness :
    jobImagesWorkspace ⟨str "base"⟩ ⟨str "Cats", 60⟩
        = jobImagesWorkspace ⟨str "base"⟩ ⟨str "Dogs", 60⟩ ∧
    ¬ (jobSrtPath ⟨str "base"⟩ ⟨str "Cats", 60⟩
        = jobSrtPath ⟨str "base"⟩ ⟨str "Dogs", 60⟩) :=
  ⟨(c9_amended ⟨str "base"⟩ ⟨str "Cats", 60⟩ ⟨str "Dogs", 60⟩).1,
   fun h => absurd ((c9_amended ⟨str "base"⟩ ⟨str "Cats", 60⟩
     ⟨str "Dogs", 60⟩).2.2.mp h) (by decide)⟩

/-- Claim C10 (counterexample): a missing script file is not converted to a
`False` return — `json_extract` swallows it into an empty text list and
`create_complete_srt` saves an empty subtitle file and returns `True`. -/
theorem c10_counterexample :
    (createCompleteSrt 10 ⟨true, .missing, ⟨true, []⟩, fun _ => some 1, true⟩).toOption
      = some true ∧
    (createCompleteSrt 10 ⟨true, .missing, ⟨true, []⟩, fun _ => some 1, true⟩).toOption
      ≠ some false := by
  decide

/-- Claim C10 (amended): every failure inside the `try` block of
`create_complete_srt` (missing audio folder, unreadable audio artifact,
the chunk-size `ValueError`, a failing save) is converted into a `False`
return and nothing inside the block raises; but the output-directory `mkdir`
precedes the `try` and its failure does raise to the caller, and a missing or
malformed script is not a failure — it yields `True` with an empty cue list
(given a readable audio folder and a successful save). The orchestrator never
inspects the returned boolean, so any non-raising subtitle failure lets the
pipeline proceed to assembly. -/
theorem c10_amended :
    (∀ (k : Nat) (env : SrtEnv), env.mkdirOk = false →
      createCompleteSrt k env = .error ()) ∧
    (∀ (k : Nat) (env : SrtEnv), env.mkdirOk = true →
      (createCompleteSrt k env).isOk = true) ∧
    (∀ (k : Nat) (env : SrtEnv), env.mkdirOk = true →
      env.audioFolder.isPresent = false → createCompleteSrt k env = .ok false) ∧
    (∀ (k : Nat) (env : SrtEnv), env.mkdirOk = true →
      env.audioFolder.isPresent = true →
      probeAll env.probe (getFilesList env.audioFolder.entries
        [str ".wav", str ".mp3"]) = none →
      createCompleteSrt k env = .ok false) ∧
    (∀ (k : Nat) (env : SrtEnv) (durs : List ℚ), env.mkdirOk = true →
      env.audioFolder.isPresent = true →
      probeAll env.probe (getFilesList env.audioFolder.entries
        [str ".wav", str ".mp3"]) = some durs →
      createCompleteSrt k env
        = .ok (!(srtRangeError k (jsonExtract env.script) durs) && env.saveOk)) ∧
    (∀ (k : Nat) (env : SrtEnv) (durs : List ℚ), env.mkdirOk = true →
      (env.script = .missing ∨ env.script = .malformed) →
      env.audioFolder.isPresent = true →
      probeAll env.probe (getFilesList env.audioFolder.entries
        [str ".wav", str ".mp3"]) = some durs →
      env.saveOk = true →
      createCompleteSrt k env = .ok true) ∧
    (∀ b : Bool, pipelineReachesAssembly (.ok b) = true) := by
  have hok : ∀ (k : Nat) (env : SrtEnv), env.mkdirOk = true →
      createCompleteSrt k env
        = .ok (match getFiles env.audioFolder [str ".wav", str ".mp3"] with
          | .error _ => false
          | .ok audioFiles =>
            match probeAll env.probe audioFiles with
            | none => false
            | some durs =>
              if srtRangeError k (jsonExtract env.script) durs then false
              else if env.saveOk = false then false
              else true) := by
    intro k env h
    unfold createCompleteSrt
    rw [if_neg (by simp [h])]
  refine ⟨?_, ?_, ?_, ?_, ?_, ?_, fun b => rfl⟩
  · intro k env h
    unfold createCompleteSrt
    rw [if_pos (by simp [h])]
  · intro k env h
    rw [hok k env h]
    rfl
  · intro k env h hfold
    rw [hok k env h]
    simp [getFiles, hfold]
  · intro k env h hfold hprob
    rw [hok k env h]
    simp [getFiles, hfold, hprob]
  · intro k env durs h hfold hprob
    rw [hok k env h]
    simp only [getFiles, hfold, if_true, hprob]
    cases hsr : srtRangeError k (jsonExtract env.script) durs
    · cases hsk : env.saveOk
      · simp [hsr, hsk]
      · simp [hsr, hsk]
    · simp [hsr]
  · intro k env durs h hscript hfold hprob hsave
    rw [hok k env h]
    simp only [getFiles, hfold, if_true, hprob]
    have hjson : jsonExtract env.script = [] := by
      rcases hscript with hs | hs
      · rw [hs]; rfl
      · rw [hs]; rfl
    have hsr : srtRangeError k (jsonExtract env.script) durs = false := by
      rw [hjson]
      simp [srtRangeError]
    simp [hsr, hsave]

/-- Claim C10 (witness): the amended theorem applied to a concrete
environment whose script is missing (returns `True`) and to one whose
output-directory creation fails (raises), plus the pipeline continuation. -/
theorem c10_amended_witness :
    createCompleteSrt 10 ⟨true, .missing, ⟨true, []⟩, fun _ => some 1, true⟩
      = .ok true ∧
    createCompleteSrt 10 ⟨false, .missing, ⟨true, []⟩, fun _ => some 1, true⟩
      = .error () ∧
    pipelineReachesAssembly (.ok false) = true :=
  ⟨c10_amended.2.2.2.2.2.1 10 ⟨true, .missing, ⟨true, []⟩, fun _ => some 1, true⟩
     [] rfl (Or.inl rfl) rfl rfl rfl,
   c10_amended.1 10 ⟨false, .missing, ⟨true, []⟩, fun _ => some 1, true⟩ rfl,
   c10_amended.2.2.2.2.2.2 false⟩

end Fragment
